import Mathlib

/-!
Verification of the text-extraction pipeline in `src/main.rs`.

Strings are modelled as `List Char`, with `List.length` standing for the
Rust byte length (`String::len`); for the ASCII content the properties
below manipulate, the two coincide.  `str::trim` is modelled by `trim`
below with the whitespace characters the program itself produces
(space, tab, newline, carriage return).  Fallible operations return
`Except String`, matching the `Result<_, String>` signatures of the
source.  External collaborators (the lopdf parser, docx-rs parser,
tesseract/leptonica OCR stack, the infer sniffer) are modelled as data
already parsed (for document trees) or as oracles in an environment
record (for OCR outcomes and sniffing).
-/

def MIN_TEXT_LEN : Nat := 256

def MAX_TEXT_LEN : Nat := 32768

abbrev Str := List Char

/-- Whitespace predicate used by `trim`; covers exactly the whitespace
characters the extractor appends (`'\n'`, `'\t'`) plus space and CR. -/
def isWs (c : Char) : Bool := c = ' ' || c = '\t' || c = '\n' || c = '\r'

/-- Drop trailing whitespace. -/
def trimR (s : Str) : Str := (s.reverse.dropWhile isWs).reverse

/-- Model of Rust `str::trim`: drop leading and trailing whitespace. -/
def trim (s : Str) : Str := trimR (s.dropWhile isWs)

/-!
## DOCX model (docx-rs types, restricted to the fields `extract_docx` reads)
-/

inductive RunChild where
  | text (t : Str)
  | brk
  | tab
  | otherRun
deriving DecidableEq

structure Run where
  children : List RunChild
deriving DecidableEq

inductive ParagraphChild where
  | run (r : Run)
  | otherPara
deriving DecidableEq

structure Paragraph where
  children : List ParagraphChild
deriving DecidableEq

inductive TableCellContent where
  | paragraph (p : Paragraph)
  | otherCell
deriving DecidableEq

structure TableCell where
  children : List TableCellContent
deriving DecidableEq

structure TableRow where
  cells : List TableCell
deriving DecidableEq

structure Table where
  rows : List TableRow
deriving DecidableEq

inductive DocumentChild where
  | paragraph (p : Paragraph)
  | table (t : Table)
  | otherDoc
deriving DecidableEq

structure Docx where
  children : List DocumentChild
deriving DecidableEq

/-- The run-children loop inside `extract_paragraph` (main.rs lines
112-131): a `Text` run child appends its text and then checks the
length bound; `Break` appends a newline and `Tab` a tab, both without a
check; any other run child is ignored. -/
def extract_runChildren : Str → List RunChild → Except String Str
  | buf, [] => .ok buf
  | buf, .text t :: rest =>
    let buf2 := buf ++ t
    if buf2.length > MAX_TEXT_LEN then
      .error ("invalid text length: " ++ toString buf2.length)
    else extract_runChildren buf2 rest
  | buf, .brk :: rest => extract_runChildren (buf ++ ['\n']) rest
  | buf, .tab :: rest => extract_runChildren (buf ++ ['\t']) rest
  | buf, .otherRun :: rest => extract_runChildren buf rest

/-- The paragraph-children loop of `extract_paragraph`: only `Run`
children are processed, everything else is skipped. -/
def extract_paragraphChildren : Str → List ParagraphChild → Except String Str
  | buf, [] => .ok buf
  | buf, .run r :: rest =>
    match extract_runChildren buf r.children with
    | .error e => .error e
    | .ok buf => extract_paragraphChildren buf rest
  | buf, .otherPara :: rest => extract_paragraphChildren buf rest

/-- `extract_paragraph` (main.rs lines 111-136): linearize the runs,
then unconditionally append one terminating newline. -/
def extract_paragraph (buf : Str) (children : List ParagraphChild) :
    Except String Str :=
  match extract_paragraphChildren buf children with
  | .error e => .error e
  | .ok buf => .ok (buf ++ ['\n'])

/-- Cell-content loop (main.rs lines 153-161): paragraphs directly in a
cell are linearized, other cell content is ignored. -/
def extract_cellChildren : Str → List TableCellContent → Except String Str
  | buf, [] => .ok buf
  | buf, .paragraph p :: rest =>
    match extract_paragraph buf p.children with
    | .error e => .error e
    | .ok buf => extract_cellChildren buf rest
  | buf, .otherCell :: rest => extract_cellChildren buf rest

/-- Cells loop (main.rs lines 152-164): after each cell one tab is
appended, without a length check. -/
def extract_cells : Str → List TableCell → Except String Str
  | buf, [] => .ok buf
  | buf, c :: rest =>
    match extract_cellChildren buf c.children with
    | .error e => .error e
    | .ok buf => extract_cells (buf ++ ['\t']) rest

/-- Rows loop (main.rs lines 151-165). -/
def extract_rows : Str → List TableRow → Except String Str
  | buf, [] => .ok buf
  | buf, r :: rest =>
    match extract_cells buf r.cells with
    | .error e => .error e
    | .ok buf => extract_rows buf rest

/-- Body loop of `extract_docx` (main.rs lines 144-172): paragraphs and
tables are processed, other body children skipped; after a table one
newline is appended without a check. -/
def extract_docChildren : Str → List DocumentChild → Except String Str
  | buf, [] => .ok buf
  | buf, .paragraph p :: rest =>
    match extract_paragraph buf p.children with
    | .error e => .error e
    | .ok buf => extract_docChildren buf rest
  | buf, .table t :: rest =>
    match extract_rows buf t.rows with
    | .error e => .error e
    | .ok buf => extract_docChildren (buf ++ ['\n']) rest
  | buf, .otherDoc :: rest => extract_docChildren buf rest

/-- `extract_docx` (main.rs lines 106-180) on an already-parsed
document tree (docx-rs parsing is an external collaborator; a parse
failure short-circuits before this function's body is relevant).  After
traversal the trimmed length is checked against the lower bound only. -/
def extract_docx (doc : Docx) : Except String Str :=
  match extract_docChildren [] doc.children with
  | .error e => .error e
  | .ok buf =>
    let el := (trim buf).length
    if el < MIN_TEXT_LEN then .error ("invalid text length: " ++ toString el)
    else .ok buf

/-!
## PDF model (lopdf document restricted to what `extract_pdf` reads,
with the tesseract/leptonica OCR stack as an outcome oracle)
-/

/-- Outcome of `stream.dict.get(b"Subtype")` followed by the
`Object::Name` match in main.rs lines 49-51. -/
inductive SubtypeEntry where
  | missing
  | nonName
  | name (s : String)
deriving DecidableEq

/-- A PDF object as far as the OCR loop inspects it: a stream with its
`Subtype` dictionary entry and raw content bytes, or any non-stream
object. -/
inductive PdfObj where
  | stream (subtype : SubtypeEntry) (content : List Nat)
  | nonStream
deriving DecidableEq

/-- Per-image outcome of the `Pix::read_mem` / `get_utf8_text` /
`to_str` pipeline (main.rs lines 57-88): the image bytes fail to
decode, the engine fails to produce (valid UTF-8) text, or recognition
succeeds with some text. -/
inductive OcrOutcome where
  | decodeFail
  | textFail
  | text (t : Str)
deriving DecidableEq

/-- External OCR environment: whether `TessBaseApi::init_4` succeeds,
and the recognition outcome for given image content bytes. -/
structure PdfEnv where
  initOk : Bool
  ocr : List Nat → OcrOutcome

/-- A parsed lopdf document as far as `extract_pdf` reads it: the
per-page extracted text in page order (`get_pages` is a BTreeMap, so
`into_keys` enumerates pages in order), and the object table in its
iteration order, with `none` standing for an object id on which
`get_object` fails. -/
structure PdfDoc where
  pages : List Str
  objects : List (Option PdfObj)

/-- The native text `document.extract_text(..all pages..)` puts into
the buffer: concatenation of per-page text in page order. -/
def natText (doc : PdfDoc) : Str := doc.pages.flatten

/-- One iteration of the OCR fallback loop (main.rs lines 46-95): skip
unresolvable objects, non-streams, streams without a `/Image` name
subtype and empty content; otherwise consult the OCR oracle — decode
or recognition failure skips the image, success appends the text, then
checks the bound, then appends a newline without a check. -/
def ocrStep (env : PdfEnv) (buf : Str) : Option PdfObj → Except String Str
  | none => .ok buf
  | some .nonStream => .ok buf
  | some (.stream st content) =>
    match st with
    | .name s =>
      if s = "Image" then
        if content = [] then .ok buf
        else
          match env.ocr content with
          | .decodeFail => .ok buf
          | .textFail => .ok buf
          | .text t =>
            let buf2 := buf ++ t
            if buf2.length > MAX_TEXT_LEN then
              .error ("invalid text length: " ++ toString buf2.length)
            else .ok (buf2 ++ ['\n'])
      else .ok buf
    | _ => .ok buf

/-- The OCR fallback loop over the whole object table; an error return
aborts `extract_pdf` immediately. -/
def ocrLoop (env : PdfEnv) : Str → List (Option PdfObj) → Except String Str
  | buf, [] => .ok buf
  | buf, o :: rest =>
    match ocrStep env buf o with
    | .error e => .error e
    | .ok buf => ocrLoop env buf rest

/-- `extract_pdf` (main.rs lines 5-104) on an already-parsed document
(lopdf `load_mem` / `extract_text` failures short-circuit before the
logic modelled here).  The Rust init-failure message carries a debug
payload of the external error; it is modelled as a fixed string. -/
def extract_pdf (env : PdfEnv) (doc : PdfDoc) : Except String Str :=
  match
    if (trim (natText doc)).length < MIN_TEXT_LEN then
      if env.initOk then ocrLoop env [] doc.objects
      else .error "failed to initialize ocr"
    else .ok (natText doc)
  with
  | .error e => .error e
  | .ok buf =>
    let el := (trim buf).length
    if el < MIN_TEXT_LEN ∨ el > MAX_TEXT_LEN then
      .error ("invalid text length: " ++ toString el)
    else .ok buf

/-!
## Dispatcher model

The `infer` sniffer and the two extractors are abstracted as oracles so
that independence of the result from them can be stated; the
`set_self_batch` call is a best-effort side effect with no influence on
the result and is not modelled.
-/

def DOCX_MIME : String :=
  "application/vnd.openxmlformats-officedocument.wordprocessingml.document"

structure DispatchEnv where
  sniff : List Nat → Option String
  runPdf : List Nat → Except String Str
  runDocx : List Nat → Except String Str

/-- The sniff-and-route tail of `dispatch` (main.rs lines 193-213). -/
def route (env : DispatchEnv) (input : List Nat) : Except String Str :=
  match env.sniff input with
  | none => .error "unknown file kind"
  | some mime =>
    if mime = "application/pdf" then env.runPdf input
    else if mime = DOCX_MIME then env.runDocx input
    else .error ("unsupported file type: " ++ mime)

/-- `dispatch` (main.rs lines 186-214): length guard, then sniff and
route. -/
def dispatch (env : DispatchEnv) (input : List Nat) : Except String Str :=
  if input.length < 256 ∨ input.length > 5 * 1024 * 1024 then
    .error ("invalid input length: " ++ toString input.length ++ " bytes")
  else
    match env.sniff input with
    | none => .error "unknown file kind"
    | some mime =>
      if mime = "application/pdf" then env.runPdf input
      else if mime = DOCX_MIME then env.runDocx input
      else .error ("unsupported file type: " ++ mime)

/-- Modelled from the spec: the Format Sniffer of §4.1 (the external
byte-sniffing classifier `infer`, not part of src/), restricted to the
embedded-image whitelist {PNG, JPEG, TIFF, GIF, WEBP}: classification
by magic-byte patterns, `none` for unrecognized input. -/
def sniffImage (bytes : List Nat) : Option String :=
  match bytes with
  | 0x89 :: 0x50 :: 0x4E :: 0x47 :: _ => some "image/png"
  | 0xFF :: 0xD8 :: 0xFF :: _ => some "image/jpeg"
  | 0x49 :: 0x49 :: 0x2A :: 0x00 :: _ => some "image/tiff"
  | 0x4D :: 0x4D :: 0x00 :: 0x2A :: _ => some "image/tiff"
  | 0x47 :: 0x49 :: 0x46 :: _ => some "image/gif"
  | 0x52 :: 0x49 :: 0x46 :: 0x46 :: _ :: _ :: _ :: _ ::
      0x57 :: 0x45 :: 0x42 :: 0x50 :: _ => some "image/webp"
  | _ => none

/-!
## Content predicates and concrete fixtures
-/

/-- A run child that contributes nothing to the buffer. -/
def runChildNoContent : RunChild → Bool
  | .otherRun => true
  | _ => false

/-- A paragraph child with no text, break or tab runs. -/
def paraChildNoContent : ParagraphChild → Bool
  | .run r => r.children.all runChildNoContent
  | .otherPara => true

/-- A paragraph whose runs contain no text, break or tab content. -/
def paraNoContent (l : List ParagraphChild) : Bool := l.all paraChildNoContent

/-- A DOCX document holding one paragraph of `n` copies of the ASCII
character a. -/
def docOf (n : Nat) : Docx :=
  ⟨[.paragraph ⟨[.run ⟨[.text (List.replicate n 'a')]⟩]⟩]⟩

/-- A DOCX document with one paragraph holding an `n`-byte text run
followed by a tab run: at `n = 32768` the tab append and the
terminating newline push the buffer beyond `MAX_TEXT_LEN` with no
check. -/
def docTextTab (n : Nat) : Docx :=
  ⟨[.paragraph ⟨[.run ⟨[.text (List.replicate n 'a'), .tab]⟩]⟩]⟩

/-- OCR environment in which image `[0]` fails to decode and every
other image recognizes to 300 characters. -/
def envSkip : PdfEnv :=
  { initOk := true
    ocr := fun c => if c = [0] then .decodeFail else .text (List.replicate 300 'a') }

/-- PDF with no native text and two image streams, the first of which
fails to decode under `envSkip`. -/
def docSkip : PdfDoc :=
  { pages := []
    objects := [some (.stream (.name "Image") [0]), some (.stream (.name "Image") [1])] }

/-- OCR environment whose engine fails to initialize. -/
def envNoInit : PdfEnv := { initOk := false, ocr := fun _ => .decodeFail }

/-- OCR environment recognizing every image to 300 characters. -/
def envOcr300 : PdfEnv :=
  { initOk := true, ocr := fun _ => .text (List.replicate 300 'a') }

/-- PDF with no native text and one image stream whose single byte `1`
matches no magic pattern of the sniffer. -/
def docJunk : PdfDoc :=
  { pages := [], objects := [some (.stream (.name "Image") [1])] }

/-- PDF with one byte of native text (too short) and one image stream. -/
def docOne : PdfDoc :=
  { pages := [['a']], objects := [some (.stream (.name "Image") [1])] }

/-- OCR environment that is never consulted successfully. -/
def envTriv : PdfEnv := { initOk := true, ocr := fun _ => .decodeFail }

/-- PDF whose native text is 32769 non-whitespace bytes and which has
no image streams. -/
def docHuge : PdfDoc := { pages := [List.replicate 32769 'a'], objects := [] }

/-- PDF whose native text is 300 non-whitespace bytes. -/
def doc300n : PdfDoc := { pages := [List.replicate 300 'a'], objects := [] }

/-- Dispatcher environment whose sniffer recognizes nothing. -/
def envD : DispatchEnv :=
  { sniff := fun _ => none
    runPdf := fun _ => .error "pdf oracle"
    runDocx := fun _ => .error "docx oracle" }

set_option maxRecDepth 40000

/-!
## Lemmas about trimming
-/

theorem dropWhile_append_of_all {p : Char → Bool} (a b : List Char)
    (h : ∀ c ∈ a, p c = true) : (a ++ b).dropWhile p = b.dropWhile p := by
  induction a with
  | nil => simp
  | cons x xs ih =>
    have hx : p x = true := h x (by simp)
    simp only [List.cons_append, List.dropWhile_cons_of_pos hx]
    exact ih fun c hc => h c (by simp [hc])

theorem dropWhile_length_le_append {p : Char → Bool} (a b : List Char) :
    (a.dropWhile p).length ≤ ((a ++ b).dropWhile p).length := by
  induction a with
  | nil => simp
  | cons x xs ih =>
    by_cases hx : p x
    · simp only [List.cons_append, List.dropWhile_cons_of_pos hx]
      exact ih
    · simp only [List.cons_append, List.dropWhile_cons_of_neg hx, List.length_cons,
        List.length_append]
      omega

theorem length_dropWhile_le' {p : Char → Bool} (l : List Char) :
    (l.dropWhile p).length ≤ l.length := by
  induction l with
  | nil => simp
  | cons x xs ih =>
    by_cases hx : p x
    · simp only [List.dropWhile_cons_of_pos hx, List.length_cons]
      exact le_trans ih (Nat.le_succ _)
    · simp [List.dropWhile_cons_of_neg hx]

theorem trimR_append_ws (s w : Str) (h : ∀ c ∈ w, isWs c = true) :
    trimR (s ++ w) = trimR s := by
  unfold trimR
  rw [List.reverse_append, dropWhile_append_of_all w.reverse s.reverse
    (fun c hc => h c (List.mem_reverse.mp hc))]

theorem trimR_length_le (s : Str) : (trimR s).length ≤ s.length := by
  unfold trimR
  simpa using length_dropWhile_le' s.reverse

theorem trim_length_le_trimR (s : Str) : (trim s).length ≤ (trimR s).length := by
  unfold trim trimR
  simp only [List.length_reverse]
  conv_rhs => rw [← List.takeWhile_append_dropWhile (p := isWs) (l := s)]
  rw [List.reverse_append]
  exact dropWhile_length_le_append _ _

theorem trim_length_le (s : Str) : (trim s).length ≤ s.length :=
  le_trans (trim_length_le_trimR s) (trimR_length_le s)

theorem dropWhile_replicate_a (n : Nat) (b : List Char) (hn : 0 < n) :
    (List.replicate n 'a' ++ b).dropWhile isWs = List.replicate n 'a' ++ b := by
  obtain ⟨m, rfl⟩ := Nat.exists_eq_succ_of_ne_zero (Nat.pos_iff_ne_zero.mp hn)
  rw [List.replicate_succ, List.cons_append,
    List.dropWhile_cons_of_neg (by simp [isWs])]

theorem trim_replicate_a_ws (n : Nat) (w : Str) (hn : 0 < n)
    (hw : ∀ c ∈ w, isWs c = true) :
    trim (List.replicate n 'a' ++ w) = List.replicate n 'a' := by
  have hdrop : (List.replicate n 'a').dropWhile isWs = List.replicate n 'a' := by
    simpa using dropWhile_replicate_a n [] hn
  unfold trim
  rw [dropWhile_replicate_a n w hn, trimR_append_ws _ _ hw]
  unfold trimR
  rw [List.reverse_replicate, hdrop, List.reverse_replicate]

theorem trim_replicate_a (n : Nat) :
    trim (List.replicate n 'a') = List.replicate n 'a' := by
  cases n with
  | zero => simp [trim, trimR]
  | succ m =>
    have := trim_replicate_a_ws (m + 1) [] (Nat.succ_pos m) (by simp)
    simpa using this

/-!
## Helper lemmas: whitespace appends and buffer bounds
-/

theorem trimR_append_nl (buf : Str) : trimR (buf ++ ['\n']) = trimR buf :=
  trimR_append_ws buf ['\n'] (by intro c hc; simp at hc; subst hc; decide)

theorem trimR_append_tab (buf : Str) : trimR (buf ++ ['\t']) = trimR buf :=
  trimR_append_ws buf ['\t'] (by intro c hc; simp at hc; subst hc; decide)

theorem extract_runChildren_bound (l : List RunChild) :
    ∀ buf buf', extract_runChildren buf l = .ok buf' →
      (trimR buf).length ≤ MAX_TEXT_LEN → (trimR buf').length ≤ MAX_TEXT_LEN := by
  induction l with
  | nil =>
    intro buf buf' h hb
    simp only [extract_runChildren, Except.ok.injEq] at h
    subst h; exact hb
  | cons c rest ih =>
    intro buf buf' h hb
    cases c with
    | text t =>
      simp only [extract_runChildren] at h
      split at h
      · simp at h
      · next hlen =>
        exact ih _ _ h (le_trans (trimR_length_le _) (Nat.not_lt.mp hlen))
    | brk =>
      simp only [extract_runChildren] at h
      exact ih _ _ h (by rw [trimR_append_nl]; exact hb)
    | tab =>
      simp only [extract_runChildren] at h
      exact ih _ _ h (by rw [trimR_append_tab]; exact hb)
    | otherRun =>
      simp only [extract_runChildren] at h
      exact ih _ _ h hb

theorem extract_paragraphChildren_bound (l : List ParagraphChild) :
    ∀ buf buf', extract_paragraphChildren buf l = .ok buf' →
      (trimR buf).length ≤ MAX_TEXT_LEN → (trimR buf').length ≤ MAX_TEXT_LEN := by
  induction l with
  | nil =>
    intro buf buf' h hb
    simp only [extract_paragraphChildren, Except.ok.injEq] at h
    subst h; exact hb
  | cons c rest ih =>
    intro buf buf' h hb
    cases c with
    | run r =>
      simp only [extract_paragraphChildren] at h
      cases hE : extract_runChildren buf r.children with
      | error e => rw [hE] at h; simp at h
      | ok buf1 =>
        rw [hE] at h
        exact ih _ _ h (extract_runChildren_bound _ _ _ hE hb)
    | otherPara =>
      simp only [extract_paragraphChildren] at h
      exact ih _ _ h hb

theorem extract_paragraph_bound (buf buf' : Str) (children : List ParagraphChild)
    (h : extract_paragraph buf children = .ok buf')
    (hb : (trimR buf).length ≤ MAX_TEXT_LEN) :
    (trimR buf').length ≤ MAX_TEXT_LEN := by
  unfold extract_paragraph at h
  cases hE : extract_paragraphChildren buf children with
  | error e => rw [hE] at h; simp at h
  | ok buf1 =>
    rw [hE] at h
    simp only [Except.ok.injEq] at h
    subst h
    rw [trimR_append_nl]
    exact extract_paragraphChildren_bound _ _ _ hE hb

theorem extract_cellChildren_bound (l : List TableCellContent) :
    ∀ buf buf', extract_cellChildren buf l = .ok buf' →
      (trimR buf).length ≤ MAX_TEXT_LEN → (trimR buf').length ≤ MAX_TEXT_LEN := by
  induction l with
  | nil =>
    intro buf buf' h hb
    simp only [extract_cellChildren, Except.ok.injEq] at h
    subst h; exact hb
  | cons c rest ih =>
    intro buf buf' h hb
    cases c with
    | paragraph p =>
      simp only [extract_cellChildren] at h
      cases hE : extract_paragraph buf p.children with
      | error e => rw [hE] at h; simp at h
      | ok buf1 =>
        rw [hE] at h
        exact ih _ _ h (extract_paragraph_bound _ _ _ hE hb)
    | otherCell =>
      simp only [extract_cellChildren] at h
      exact ih _ _ h hb

theorem extract_cells_bound (l : List TableCell) :
    ∀ buf buf', extract_cells buf l = .ok buf' →
      (trimR buf).length ≤ MAX_TEXT_LEN → (trimR buf').length ≤ MAX_TEXT_LEN := by
  induction l with
  | nil =>
    intro buf buf' h hb
    simp only [extract_cells, Except.ok.injEq] at h
    subst h; exact hb
  | cons c rest ih =>
    intro buf buf' h hb
    simp only [extract_cells] at h
    cases hE : extract_cellChildren buf c.children with
    | error e => rw [hE] at h; simp at h
    | ok buf1 =>
      rw [hE] at h
      refine ih _ _ h ?_
      rw [trimR_append_tab]
      exact extract_cellChildren_bound _ _ _ hE hb

theorem extract_rows_bound (l : List TableRow) :
    ∀ buf buf', extract_rows buf l = .ok buf' →
      (trimR buf).length ≤ MAX_TEXT_LEN → (trimR buf').length ≤ MAX_TEXT_LEN := by
  induction l with
  | nil =>
    intro buf buf' h hb
    simp only [extract_rows, Except.ok.injEq] at h
    subst h; exact hb
  | cons r rest ih =>
    intro buf buf' h hb
    simp only [extract_rows] at h
    cases hE : extract_cells buf r.cells with
    | error e => rw [hE] at h; simp at h
    | ok buf1 =>
      rw [hE] at h
      exact ih _ _ h (extract_cells_bound _ _ _ hE hb)

theorem extract_docChildren_bound (l : List DocumentChild) :
    ∀ buf buf', extract_docChildren buf l = .ok buf' →
      (trimR buf).length ≤ MAX_TEXT_LEN → (trimR buf').length ≤ MAX_TEXT_LEN := by
  induction l with
  | nil =>
    intro buf buf' h hb
    simp only [extract_docChildren, Except.ok.injEq] at h
    subst h; exact hb
  | cons c rest ih =>
    intro buf buf' h hb
    cases c with
    | paragraph p =>
      simp only [extract_docChildren] at h
      cases hE : extract_paragraph buf p.children with
      | error e => rw [hE] at h; simp at h
      | ok buf1 =>
        rw [hE] at h
        exact ih _ _ h (extract_paragraph_bound _ _ _ hE hb)
    | table t =>
      simp only [extract_docChildren] at h
      cases hE : extract_rows buf t.rows with
      | error e => rw [hE] at h; simp at h
      | ok buf1 =>
        rw [hE] at h
        refine ih _ _ h ?_
        rw [trimR_append_nl]
        exact extract_rows_bound _ _ _ hE hb
    | otherDoc =>
      simp only [extract_docChildren] at h
      exact ih _ _ h hb

/-!
## Helper lemmas: the OCR fallback loop
-/

/-- Text contributed to the buffer by one object of the OCR loop: the
recognized text plus the following newline on success, nothing
otherwise. -/
def stepText (env : PdfEnv) : Option PdfObj → Str
  | some (.stream (.name s) content) =>
    if s = "Image" then
      if content = [] then []
      else
        match env.ocr content with
        | .decodeFail => []
        | .textFail => []
        | .text t => t ++ ['\n']
    else []
  | some (.stream .missing _) => []
  | some (.stream .nonName _) => []
  | some .nonStream => []
  | none => []

/-- Concatenation of all OCR-produced text over the object table. -/
def ocrTexts (env : PdfEnv) (objs : List (Option PdfObj)) : Str :=
  (objs.map (stepText env)).flatten

theorem ocrStep_ok (env : PdfEnv) (buf : Str) (o : Option PdfObj) (buf' : Str)
    (h : ocrStep env buf o = .ok buf') : buf' = buf ++ stepText env o := by
  cases o with
  | none =>
    simp only [ocrStep, Except.ok.injEq] at h
    subst h; simp [stepText]
  | some obj =>
    cases obj with
    | nonStream =>
      simp only [ocrStep, Except.ok.injEq] at h
      subst h; simp [stepText]
    | stream st content =>
      cases st with
      | missing =>
        simp only [ocrStep, Except.ok.injEq] at h
        subst h; simp [stepText]
      | nonName =>
        simp only [ocrStep, Except.ok.injEq] at h
        subst h; simp [stepText]
      | name s =>
        simp only [ocrStep] at h
        simp only [stepText]
        by_cases hs : s = "Image"
        · simp only [if_pos hs] at h ⊢
          by_cases hc : content = []
          · simp only [if_pos hc] at h ⊢
            simp only [Except.ok.injEq] at h
            subst h; simp
          · simp only [if_neg hc] at h ⊢
            cases hocr : env.ocr content with
            | decodeFail =>
              simp only [hocr, Except.ok.injEq] at h
              subst h; simp
            | textFail =>
              simp only [hocr, Except.ok.injEq] at h
              subst h; simp
            | text t =>
              simp only [hocr] at h
              split at h
              · simp at h
              · simp only [Except.ok.injEq] at h
                subst h; simp
        · simp only [if_neg hs] at h ⊢
          simp only [Except.ok.injEq] at h
          subst h; simp
      
theorem ocrStep_bound (env : PdfEnv) (buf : Str) (o : Option PdfObj) (buf' : Str)
    (h : ocrStep env buf o = .ok buf')
    (hb : (trimR buf).length ≤ MAX_TEXT_LEN) :
    (trimR buf').length ≤ MAX_TEXT_LEN := by
  cases o with
  | none =>
    simp only [ocrStep, Except.ok.injEq] at h
    subst h; exact hb
  | some obj =>
    cases obj with
    | nonStream =>
      simp only [ocrStep, Except.ok.injEq] at h
      subst h; exact hb
    | stream st content =>
      cases st with
      | missing =>
        simp only [ocrStep, Except.ok.injEq] at h
        subst h; exact hb
      | nonName =>
        simp only [ocrStep, Except.ok.injEq] at h
        subst h; exact hb
      | name s =>
        simp only [ocrStep] at h
        by_cases hs : s = "Image"
        · simp only [if_pos hs] at h
          by_cases hc : content = []
          · simp only [if_pos hc, Except.ok.injEq] at h
            subst h; exact hb
          · simp only [if_neg hc] at h
            cases hocr : env.ocr content with
            | decodeFail =>
              simp only [hocr, Except.ok.injEq] at h
              subst h; exact hb
            | textFail =>
              simp only [hocr, Except.ok.injEq] at h
              subst h; exact hb
            | text t =>
              simp only [hocr] at h
              split at h
              · simp at h
              · next hlen =>
                simp only [Except.ok.injEq] at h
                subst h
                rw [trimR_append_nl]
                exact le_trans (trimR_length_le _) (Nat.not_lt.mp hlen)
        · simp only [if_neg hs, Except.ok.injEq] at h
          subst h; exact hb

theorem ocrLoop_ok (env : PdfEnv) (objs : List (Option PdfObj)) :
    ∀ buf buf', ocrLoop env buf objs = .ok buf' →
      buf' = buf ++ ocrTexts env objs := by
  induction objs with
  | nil =>
    intro buf buf' h
    simp only [ocrLoop, Except.ok.injEq] at h
    subst h; simp [ocrTexts]
  | cons o rest ih =>
    intro buf buf' h
    simp only [ocrLoop] at h
    cases hE : ocrStep env buf o with
    | error e => rw [hE] at h; simp at h
    | ok buf1 =>
      rw [hE] at h
      rw [ih _ _ h, ocrStep_ok env buf o buf1 hE]
      simp [ocrTexts]

theorem ocrLoop_bound (env : PdfEnv) (objs : List (Option PdfObj)) :
    ∀ buf buf', ocrLoop env buf objs = .ok buf' →
      (trimR buf).length ≤ MAX_TEXT_LEN → (trimR buf').length ≤ MAX_TEXT_LEN := by
  induction objs with
  | nil =>
    intro buf buf' h hb
    simp only [ocrLoop, Except.ok.injEq] at h
    subst h; exact hb
  | cons o rest ih =>
    intro buf buf' h hb
    simp only [ocrLoop] at h
    cases hE : ocrStep env buf o with
    | error e => rw [hE] at h; simp at h
    | ok buf1 =>
      rw [hE] at h
      exact ih _ _ h (ocrStep_bound env buf o buf1 hE hb)

/-!
## Helper lemmas: buffer extension and empty paragraphs
-/

theorem extract_runChildren_extends (l : List RunChild) :
    ∀ buf buf', extract_runChildren buf l = .ok buf' → ∃ c, buf' = buf ++ c := by
  induction l with
  | nil =>
    intro buf buf' h
    simp only [extract_runChildren, Except.ok.injEq] at h
    exact ⟨[], by simp [h]⟩
  | cons c rest ih =>
    intro buf buf' h
    cases c with
    | text t =>
      simp only [extract_runChildren] at h
      split at h
      · simp at h
      · obtain ⟨c2, hc2⟩ := ih _ _ h
        exact ⟨t ++ c2, by simp [hc2]⟩
    | brk =>
      simp only [extract_runChildren] at h
      obtain ⟨c2, hc2⟩ := ih _ _ h
      exact ⟨'\n' :: c2, by simp [hc2]⟩
    | tab =>
      simp only [extract_runChildren] at h
      obtain ⟨c2, hc2⟩ := ih _ _ h
      exact ⟨'\t' :: c2, by simp [hc2]⟩
    | otherRun =>
      simp only [extract_runChildren] at h
      exact ih _ _ h

theorem extract_paragraphChildren_extends (l : List ParagraphChild) :
    ∀ buf buf', extract_paragraphChildren buf l = .ok buf' → ∃ c, buf' = buf ++ c := by
  induction l with
  | nil =>
    intro buf buf' h
    simp only [extract_paragraphChildren, Except.ok.injEq] at h
    exact ⟨[], by simp [h]⟩
  | cons c rest ih =>
    intro buf buf' h
    cases c with
    | run r =>
      simp only [extract_paragraphChildren] at h
      cases hE : extract_runChildren buf r.children with
      | error e => rw [hE] at h; simp at h
      | ok buf1 =>
        rw [hE] at h
        obtain ⟨c1, hc1⟩ := extract_runChildren_extends _ _ _ hE
        obtain ⟨c2, hc2⟩ := ih _ _ h
        exact ⟨c1 ++ c2, by simp [hc2, hc1]⟩
    | otherPara =>
      simp only [extract_paragraphChildren] at h
      exact ih _ _ h

theorem extract_runChildren_noContent (l : List RunChild) :
    l.all runChildNoContent = true →
    ∀ buf, extract_runChildren buf l = .ok buf := by
  intro h buf
  induction l generalizing buf with
  | nil => simp [extract_runChildren]
  | cons c rest ih =>
    simp only [List.all_cons, Bool.and_eq_true] at h
    cases c with
    | text t => simp [runChildNoContent] at h
    | brk => simp [runChildNoContent] at h
    | tab => simp [runChildNoContent] at h
    | otherRun =>
      simp only [extract_runChildren]
      exact ih h.2 buf

theorem extract_paragraphChildren_noContent (l : List ParagraphChild) :
    paraNoContent l = true →
    ∀ buf, extract_paragraphChildren buf l = .ok buf := by
  intro h buf
  induction l generalizing buf with
  | nil => simp [extract_paragraphChildren]
  | cons c rest ih =>
    simp only [paraNoContent, List.all_cons, Bool.and_eq_true] at h
    cases c with
    | run r =>
      simp only [extract_paragraphChildren]
      rw [extract_runChildren_noContent r.children (by simpa [paraChildNoContent] using h.1) buf]
      exact ih h.2 buf
    | otherPara =>
      simp only [extract_paragraphChildren]
      exact ih h.2 buf

/-!
## Helper lemmas: individual OCR steps
-/

theorem ocrStep_skip (env : PdfEnv) (buf : Str) (content : List Nat)
    (h : env.ocr content = .decodeFail ∨ env.ocr content = .textFail) :
    ocrStep env buf (some (.stream (.name "Image") content)) = .ok buf := by
  simp only [ocrStep, if_pos (show ("Image" : String) = "Image" from rfl), if_true]
  by_cases hc : content = []
  · simp [hc]
  · rw [if_neg hc]
    rcases h with h | h <;> simp [h]

theorem ocrStep_submit (env : PdfEnv) (buf : Str) (content : List Nat) (t : Str)
    (hc : content ≠ []) (h : env.ocr content = .text t)
    (hlen : (buf ++ t).length ≤ MAX_TEXT_LEN) :
    ocrStep env buf (some (.stream (.name "Image") content)) =
      .ok (buf ++ t ++ ['\n']) := by
  simp only [ocrStep, if_pos (show ("Image" : String) = "Image" from rfl), if_true,
    if_neg hc]
  rw [h]
  simp only [if_neg (by omega : ¬ (buf ++ t).length > MAX_TEXT_LEN)]

/-!
## Helper lemmas: extract_pdf control paths
-/

theorem extract_pdf_native (env : PdfEnv) (doc : PdfDoc)
    (h : MIN_TEXT_LEN ≤ (trim (natText doc)).length) :
    extract_pdf env doc =
      if MAX_TEXT_LEN < (trim (natText doc)).length then
        .error ("invalid text length: " ++ toString (trim (natText doc)).length)
      else .ok (natText doc) := by
  unfold extract_pdf
  rw [if_neg (by omega)]
  show (if (trim (natText doc)).length < MIN_TEXT_LEN ∨
        (trim (natText doc)).length > MAX_TEXT_LEN then
      Except.error ("invalid text length: " ++ toString (trim (natText doc)).length)
    else Except.ok (natText doc)) = _
  by_cases hb : MAX_TEXT_LEN < (trim (natText doc)).length
  · rw [if_pos (Or.inr hb), if_pos hb]
  · rw [if_neg (by rintro (hx | hx) <;> omega), if_neg hb]

theorem extract_pdf_fallback (env : PdfEnv) (doc : PdfDoc) (buf : Str)
    (hshort : (trim (natText doc)).length < MIN_TEXT_LEN)
    (hinit : env.initOk = true)
    (hloop : ocrLoop env [] doc.objects = .ok buf) :
    extract_pdf env doc =
      if (trim buf).length < MIN_TEXT_LEN ∨ (trim buf).length > MAX_TEXT_LEN then
        .error ("invalid text length: " ++ toString (trim buf).length)
      else .ok buf := by
  unfold extract_pdf
  rw [if_pos hshort, hinit, if_pos rfl, hloop]

theorem extract_pdf_initFail (env : PdfEnv) (doc : PdfDoc)
    (hshort : (trim (natText doc)).length < MIN_TEXT_LEN)
    (hinit : env.initOk = false) :
    extract_pdf env doc = .error "failed to initialize ocr" := by
  unfold extract_pdf
  rw [if_pos hshort, hinit]
  simp

/-!
## Claim theorems
-/

/-- Claim C5: a DOCX tree holding one paragraph of exactly 256 ASCII
characters extracts to that paragraph plus its terminating newline,
while the same paragraph with 255 characters yields the
insufficient-text error. -/
theorem c5_docx_roundtrip_boundary :
    extract_docx (docOf 256) = .ok (List.replicate 256 'a' ++ ['\n']) ∧
    extract_docx (docOf 255) = .error "invalid text length: 255" :=
  ⟨rfl, rfl⟩

/-- Claim C6: `dispatch` rejects inputs shorter than 256 bytes or longer
than 5 MiB with the invalid-input-length error for every sniffing and
extraction oracle (so neither sniffing nor parsing can influence the
result), and inputs with length inside the range always proceed to the
sniff-and-route tail, never being rejected for length. -/
theorem c6_dispatch_length_guard (env : DispatchEnv) (input : List Nat) :
    ((input.length < 256 ∨ input.length > 5 * 1024 * 1024) →
      dispatch env input =
        .error ("invalid input length: " ++ toString input.length ++ " bytes")) ∧
    (256 ≤ input.length → input.length ≤ 5 * 1024 * 1024 →
      dispatch env input = route env input) := by
  constructor
  · intro h
    unfold dispatch
    rw [if_pos h]
  · intro h1 h2
    unfold dispatch route
    rw [if_neg (by rintro (hx | hx) <;> omega)]

/-- Witness for C6 at inputs of length 100 and 300. -/
theorem c6_witness :
    dispatch envD (List.replicate 100 0) =
      .error "invalid input length: 100 bytes" ∧
    dispatch envD (List.replicate 300 0) = route envD (List.replicate 300 0) :=
  ⟨(c6_dispatch_length_guard envD (List.replicate 100 0)).1 (Or.inl (by simp)),
   (c6_dispatch_length_guard envD (List.replicate 300 0)).2 (by simp) (by simp)⟩

/-- Claim C9: whenever DOCX extraction succeeds, the trimmed length of
the result is at most `MAX_TEXT_LEN` even though `extract_docx` has no
final upper-bound check: every character appended after the last checked
text append is newline or tab whitespace, which trimming removes. -/
theorem c9_docx_trimmed_bounded (doc : Docx) (text : Str)
    (h : extract_docx doc = .ok text) : (trim text).length ≤ MAX_TEXT_LEN := by
  unfold extract_docx at h
  cases hE : extract_docChildren [] doc.children with
  | error e => rw [hE] at h; simp at h
  | ok buf =>
    rw [hE] at h
    have h' : (if (trim buf).length < MIN_TEXT_LEN then
        (Except.error ("invalid text length: " ++ toString (trim buf).length) :
          Except String Str)
      else Except.ok buf) = Except.ok text := h
    by_cases hlt : (trim buf).length < MIN_TEXT_LEN
    · rw [if_pos hlt] at h'
      cases h'
    · rw [if_neg hlt] at h'
      simp only [Except.ok.injEq] at h'
      subst h'
      exact le_trans (trim_length_le_trimR _)
        (extract_docChildren_bound _ _ _ hE (by decide))

/-- Witness for C9 at the one-paragraph 256-character document. -/
theorem c9_witness :
    (trim (List.replicate 256 'a' ++ ['\n'])).length ≤ MAX_TEXT_LEN :=
  c9_docx_trimmed_bounded (docOf 256) (List.replicate 256 'a' ++ ['\n']) rfl

/-- Claim C10: `extract_paragraph` appends the terminating newline after
the paragraph's run content, unconditionally; a paragraph with no text,
break or tab runs contributes exactly one newline.  Paragraphs inside
table cells go through the same `extract_paragraph`, so the same holds
for them. -/
theorem c10_paragraph_terminator (buf : Str) (children : List ParagraphChild)
    (buf' : Str) (h : extract_paragraph buf children = .ok buf') :
    (∃ content, buf' = buf ++ content ++ ['\n']) ∧
    (paraNoContent children = true → buf' = buf ++ ['\n']) := by
  unfold extract_paragraph at h
  cases hE : extract_paragraphChildren buf children with
  | error e => rw [hE] at h; simp at h
  | ok buf1 =>
    rw [hE] at h
    simp only [Except.ok.injEq] at h
    subst h
    constructor
    · obtain ⟨c, hc⟩ := extract_paragraphChildren_extends _ _ _ hE
      exact ⟨c, by rw [hc]⟩
    · intro hnc
      have hn := extract_paragraphChildren_noContent children hnc buf
      rw [hn] at hE
      simp only [Except.ok.injEq] at hE
      rw [← hE]

/-- Witness for C10 at the empty paragraph. -/
theorem c10_witness :
    (∃ content, (['\n'] : Str) = [] ++ content ++ ['\n']) ∧
    (paraNoContent [] = true → (['\n'] : Str) = [] ++ ['\n']) :=
  c10_paragraph_terminator [] [] ['\n'] rfl

/-- Claim C7: when the trimmed native PDF text is too short, the buffer
is cleared before the OCR fallback, so any successful result is exactly
the concatenation of the OCR-produced texts — the short native text
never appears in it. -/
theorem c7_ocr_only_after_clear (env : PdfEnv) (doc : PdfDoc) (text : Str)
    (hshort : (trim (natText doc)).length < MIN_TEXT_LEN)
    (h : extract_pdf env doc = .ok text) :
    text = ocrTexts env doc.objects := by
  cases hinit : env.initOk with
  | false =>
    rw [extract_pdf_initFail env doc hshort hinit] at h
    cases h
  | true =>
    cases hloop : ocrLoop env [] doc.objects with
    | error e =>
      unfold extract_pdf at h
      rw [if_pos hshort, hinit, if_pos rfl, hloop] at h
      have h' : (Except.error e : Except String Str) = Except.ok text := h
      cases h'
    | ok buf =>
      rw [extract_pdf_fallback env doc buf hshort hinit hloop] at h
      split at h
      · cases h
      · simp only [Except.ok.injEq] at h
        subst h
        simpa using ocrLoop_ok env doc.objects [] buf hloop

/-- Witness for C7 at a one-image PDF with one byte of native text. -/
theorem c7_witness :
    (List.replicate 300 'a' ++ ['\n'] : Str) = ocrTexts envOcr300 docOne.objects :=
  c7_ocr_only_after_clear envOcr300 docOne (List.replicate 300 'a' ++ ['\n'])
    (by decide) rfl

/-!
## Helper lemma: evaluating extract_docx on the text-then-tab document
-/

theorem extract_docx_docTextTab (n : Nat) (hmin : MIN_TEXT_LEN ≤ n)
    (hmax : n ≤ MAX_TEXT_LEN) :
    extract_docx (docTextTab n) = .ok (List.replicate n 'a' ++ ['\t', '\n']) := by
  have hrc : extract_runChildren [] [.text (List.replicate n 'a'), .tab] =
      .ok (List.replicate n 'a' ++ ['\t']) := by
    simp only [extract_runChildren, List.nil_append]
    rw [if_neg (by simp only [List.length_replicate]; omega)]
  have hpc : extract_paragraphChildren []
      [.run ⟨[.text (List.replicate n 'a'), .tab]⟩] =
      .ok (List.replicate n 'a' ++ ['\t']) := by
    simp only [extract_paragraphChildren, hrc]
  have hp : extract_paragraph [] [.run ⟨[.text (List.replicate n 'a'), .tab]⟩] =
      .ok (List.replicate n 'a' ++ ['\t'] ++ ['\n']) := by
    unfold extract_paragraph
    rw [hpc]
  have hdc : extract_docChildren [] (docTextTab n).children =
      .ok (List.replicate n 'a' ++ ['\t'] ++ ['\n']) := by
    show extract_docChildren []
      [.paragraph ⟨[.run ⟨[.text (List.replicate n 'a'), .tab]⟩]⟩] = _
    simp only [extract_docChildren, hp]
  have htrim : trim (List.replicate n 'a' ++ ['\t'] ++ ['\n']) =
      List.replicate n 'a' := by
    rw [List.append_assoc]
    refine trim_replicate_a_ws n (['\t'] ++ ['\n'])
      (by have h256 : (256 : Nat) ≤ n := hmin; omega) ?_
    intro c hc
    simp only [List.cons_append, List.nil_append, List.mem_cons,
      List.not_mem_nil, or_false] at hc
    rcases hc with rfl | rfl <;> decide
  unfold extract_docx
  rw [hdc]
  show (if (trim (List.replicate n 'a' ++ ['\t'] ++ ['\n'])).length < MIN_TEXT_LEN
      then Except.error ("invalid text length: " ++
        toString (trim (List.replicate n 'a' ++ ['\t'] ++ ['\n'])).length)
      else Except.ok (List.replicate n 'a' ++ ['\t'] ++ ['\n'])) = _
  rw [htrim, List.length_replicate]
  rw [if_neg (show ¬ n < MIN_TEXT_LEN by omega)]
  simp

/-- Claim C1 is false on the code: under `envSkip` the first image of
`docSkip` fails to decode, yet extraction does not abort with an error —
the failing image is skipped and extraction succeeds on the second
image's OCR text. -/
theorem c1_counterexample :
    envSkip.ocr [0] = .decodeFail ∧
    extract_pdf envSkip docSkip = .ok (List.replicate 300 'a' ++ ['\n']) :=
  ⟨rfl, rfl⟩

/-- Claim C1 amended: an embedded image whose bytes fail to decode or
whose recognition fails to produce text is skipped, and the loop
continues with the remaining images; only OCR engine initialization
failure aborts the whole extraction with an error. -/
theorem c1_amended_failed_image_skipped :
    (∀ (env : PdfEnv) (buf : Str) (content : List Nat)
        (rest : List (Option PdfObj)),
      env.ocr content = .decodeFail ∨ env.ocr content = .textFail →
      ocrLoop env buf (some (.stream (.name "Image") content) :: rest) =
        ocrLoop env buf rest) ∧
    (∀ (env : PdfEnv) (doc : PdfDoc),
      (trim (natText doc)).length < MIN_TEXT_LEN → env.initOk = false →
      extract_pdf env doc = .error "failed to initialize ocr") := by
  constructor
  · intro env buf content rest h
    simp only [ocrLoop, ocrStep_skip env buf content h]
  · intro env doc hshort hinit
    exact extract_pdf_initFail env doc hshort hinit

/-- Witness for the amended C1: a concrete skipped image and a concrete
initialization failure. -/
theorem c1_witness :
    ocrLoop envSkip [] [some (.stream (.name "Image") [0]),
      some (.stream (.name "Image") [1])] =
      ocrLoop envSkip [] [some (.stream (.name "Image") [1])] ∧
    extract_pdf envNoInit docSkip = .error "failed to initialize ocr" :=
  ⟨c1_amended_failed_image_skipped.1 envSkip [] [0]
      [some (.stream (.name "Image") [1])] (Or.inl rfl),
   c1_amended_failed_image_skipped.2 envNoInit docSkip (by decide) rfl⟩

/-- Claim C2 is false on the code: on `docTextTab 32768` the buffer
crosses 32768 bytes at the unchecked tab append (and again at the
terminating newline), yet extraction succeeds, and the returned text is
longer than `MAX_TEXT_LEN`. -/
theorem c2_counterexample :
    extract_docx (docTextTab 32768) =
      .ok (List.replicate 32768 'a' ++ ['\t', '\n']) ∧
    MAX_TEXT_LEN < (List.replicate 32768 'a' ++ ['\t', '\n']).length := by
  constructor
  · exact extract_docx_docTextTab 32768 (by norm_num [MIN_TEXT_LEN])
      (by norm_num [MAX_TEXT_LEN])
  · rw [List.length_append, List.length_replicate]
    norm_num [MAX_TEXT_LEN]

/-- Claim C2 amended: only text appends are followed by a length check —
a text append that leaves the buffer above 32768 bytes fails immediately
at that append, before any further run child is processed — while
newline and tab appends are unchecked and never fail, whatever the
buffer length. -/
theorem c2_amended_only_text_appends_checked :
    (∀ (buf t : Str) (rest : List RunChild),
      MAX_TEXT_LEN < (buf ++ t).length →
      extract_runChildren buf (.text t :: rest) =
        .error ("invalid text length: " ++ toString (buf ++ t).length)) ∧
    (∀ (buf : Str) (rest : List RunChild),
      extract_runChildren buf (.brk :: rest) =
        extract_runChildren (buf ++ ['\n']) rest) ∧
    (∀ (buf : Str) (rest : List RunChild),
      extract_runChildren buf (.tab :: rest) =
        extract_runChildren (buf ++ ['\t']) rest) := by
  refine ⟨?_, ?_, ?_⟩
  · intro buf t rest h
    simp only [extract_runChildren]
    rw [if_pos (show (buf ++ t).length > MAX_TEXT_LEN from h)]
  · intro buf rest; rfl
  · intro buf rest; rfl

/-- Witness for the amended C2: a crossing text append fails at once; a
break append never fails. -/
theorem c2_witness :
    extract_runChildren (List.replicate MAX_TEXT_LEN 'a') [.text ['b']] =
      .error ("invalid text length: " ++
        toString (List.replicate MAX_TEXT_LEN 'a' ++ ['b']).length) ∧
    extract_runChildren [] [.brk] = extract_runChildren ([] ++ ['\n']) [] :=
  ⟨c2_amended_only_text_appends_checked.1 (List.replicate MAX_TEXT_LEN 'a') ['b'] []
      (by rw [List.length_append, List.length_replicate]; norm_num [MAX_TEXT_LEN]),
   c2_amended_only_text_appends_checked.2.1 [] []⟩

/-- Claim C3 is false on the code: the single byte `1` is sniffed as no
recognized image kind at all, yet the image holding it is submitted to
the OCR engine — its recognized text is the extraction result — rather
than being silently skipped. -/
theorem c3_counterexample :
    sniffImage [1] = none ∧
    extract_pdf envOcr300 docJunk = .ok (List.replicate 300 'a' ++ ['\n']) :=
  ⟨rfl, rfl⟩

/-- Claim C3 amended: embedded images are never sniffed — every
non-empty stream whose subtype name is Image is submitted to the OCR
engine regardless of its bytes; the whitelist of §4.1 plays no role in
the fallback loop. -/
theorem c3_amended_images_not_sniffed (env : PdfEnv) (buf : Str)
    (content : List Nat) (t : Str) (rest : List (Option PdfObj))
    (hc : content ≠ []) (h : env.ocr content = .text t)
    (hlen : (buf ++ t).length ≤ MAX_TEXT_LEN) :
    ocrLoop env buf (some (.stream (.name "Image") content) :: rest) =
      ocrLoop env (buf ++ t ++ ['\n']) rest := by
  simp only [ocrLoop, ocrStep_submit env buf content t hc h hlen]

/-- Witness for the amended C3 at bytes matching no magic pattern. -/
theorem c3_witness :
    ocrLoop envOcr300 [] [some (.stream (.name "Image") [9, 9, 9]), none] =
      ocrLoop envOcr300 ([] ++ List.replicate 300 'a' ++ ['\n']) [none] :=
  c3_amended_images_not_sniffed envOcr300 [] [9, 9, 9] (List.replicate 300 'a')
    [none] (by decide) rfl (by simp [MAX_TEXT_LEN])

/-- Claim C4 is false on the code: `docHuge` has trimmed native text of
32769 bytes — well above `MIN_TEXT_LEN` — yet `extract_pdf` returns the
invalid-text-length error instead of the page concatenation, because the
final check also enforces the upper bound on never-checked native
text. -/
theorem c4_counterexample :
    MIN_TEXT_LEN ≤ (trim (natText docHuge)).length ∧
    extract_pdf envTriv docHuge = .error "invalid text length: 32769" := by
  have hnat : natText docHuge = List.replicate 32769 'a' := by
    show List.flatten [List.replicate 32769 'a'] = _
    rw [List.flatten_cons, List.flatten_nil, List.append_nil]
  have hlen : (trim (natText docHuge)).length = 32769 := by
    rw [hnat, trim_replicate_a, List.length_replicate]
  constructor
  · rw [hlen]; norm_num [MIN_TEXT_LEN]
  · rw [extract_pdf_native envTriv docHuge (by rw [hlen]; norm_num [MIN_TEXT_LEN])]
    rw [if_pos (show MAX_TEXT_LEN < (trim (natText docHuge)).length by
      rw [hlen]; norm_num [MAX_TEXT_LEN])]
    rw [hlen]
    rfl

/-- Claim C4 amended: for every OCR environment, if the trimmed native
text length lies in `[MIN_TEXT_LEN, MAX_TEXT_LEN]` then `extract_pdf`
returns the page-order concatenation of the native text and the OCR
engine is never consulted (the result does not depend on `env`); native
trimmed length above `MAX_TEXT_LEN` is instead a terminal error. -/
theorem c4_amended_native_sufficient (env : PdfEnv) (doc : PdfDoc)
    (hmin : MIN_TEXT_LEN ≤ (trim (natText doc)).length)
    (hmax : (trim (natText doc)).length ≤ MAX_TEXT_LEN) :
    extract_pdf env doc = .ok (natText doc) := by
  rw [extract_pdf_native env doc hmin, if_neg (by omega)]

/-- Witness for the amended C4 at a 300-byte one-page document. -/
theorem c4_witness : extract_pdf envTriv doc300n = .ok (natText doc300n) :=
  c4_amended_native_sufficient envTriv doc300n (by decide) (by decide)

/-- Claim C8 is false on the code: on `docHuge` the trimmed length at
the final check is 32769 — at least `MIN_TEXT_LEN`, above
`MAX_TEXT_LEN` — so the upper-bound failure branch is reached: the
native path never passes through the incremental checks. -/
theorem c8_counterexample :
    MIN_TEXT_LEN ≤ (trim (natText docHuge)).length ∧
    MAX_TEXT_LEN < (trim (natText docHuge)).length ∧
    extract_pdf envTriv docHuge = .error "invalid text length: 32769" := by
  have hnat : natText docHuge = List.replicate 32769 'a' := by
    show List.flatten [List.replicate 32769 'a'] = _
    rw [List.flatten_cons, List.flatten_nil, List.append_nil]
  have hlen : (trim (natText docHuge)).length = 32769 := by
    rw [hnat, trim_replicate_a, List.length_replicate]
  refine ⟨by rw [hlen]; norm_num [MIN_TEXT_LEN],
    by rw [hlen]; norm_num [MAX_TEXT_LEN], ?_⟩
  rw [extract_pdf_native envTriv docHuge (by rw [hlen]; norm_num [MIN_TEXT_LEN])]
  rw [if_pos (show MAX_TEXT_LEN < (trim (natText docHuge)).length by
    rw [hlen]; norm_num [MAX_TEXT_LEN])]
  rw [hlen]
  rfl

/-- Claim C8 amended: after the OCR fallback has run (buffer cleared,
loop succeeded), the trimmed length at the final check is at most
`MAX_TEXT_LEN`, so only the lower bound can fail there; on the native
path — which has no incremental checks — the upper bound can fail. -/
theorem c8_amended_upper_bound_unreachable_after_ocr (env : PdfEnv)
    (doc : PdfDoc) (buf : Str)
    (hshort : (trim (natText doc)).length < MIN_TEXT_LEN)
    (hinit : env.initOk = true)
    (hloop : ocrLoop env [] doc.objects = .ok buf) :
    (trim buf).length ≤ MAX_TEXT_LEN ∧
    extract_pdf env doc =
      if (trim buf).length < MIN_TEXT_LEN then
        .error ("invalid text length: " ++ toString (trim buf).length)
      else .ok buf := by
  have hb : (trim buf).length ≤ MAX_TEXT_LEN :=
    le_trans (trim_length_le_trimR _)
      (ocrLoop_bound env doc.objects [] buf hloop (by decide))
  refine ⟨hb, ?_⟩
  rw [extract_pdf_fallback env doc buf hshort hinit hloop]
  by_cases hlt : (trim buf).length < MIN_TEXT_LEN
  · rw [if_pos (Or.inl hlt), if_pos hlt]
  · rw [if_neg (by rintro (hx | hx) <;> omega), if_neg hlt]

/-- Witness for the amended C8 at a one-image PDF whose OCR output is
300 bytes. -/
theorem c8_witness :
    (trim (List.replicate 300 'a' ++ ['\n'])).length ≤ MAX_TEXT_LEN ∧
    extract_pdf envOcr300 docOne =
      (if (trim (List.replicate 300 'a' ++ ['\n'])).length < MIN_TEXT_LEN then
        .error ("invalid text length: " ++
          toString (trim (List.replicate 300 'a' ++ ['\n'])).length)
      else .ok (List.replicate 300 'a' ++ ['\n'])) :=
  c8_amended_upper_bound_unreachable_after_ocr envOcr300 docOne
    (List.replicate 300 'a' ++ ['\n']) (by decide) rfl rfl
